import Mathlib

/-!
Verification of the caching_benchmarking repository (vecsum2.c microbenchmark
and the ByteBufferRecordReader statistics update) against its natural-language
specification.  The C and Java sources are shallowly embedded: doubles are
modelled as exact rationals (the spec speaks of equality under exact
arithmetic / reassociation of addition), machine integers as Nat/Int, and the
external HDFS / OS calls as explicit oracle inputs (a World record of success
flags plus the target file's length and contents).
-/

namespace Vecsum2

/-! ### Fixed constants (vecsum2.c lines 23-26) -/

def VECSUM_CHUNK_SIZE : ℕ := 8 * 1024 * 1024
def ZCR_READ_CHUNK_SIZE : ℕ := 1024 * 1024 * 8
def NORMAL_READ_CHUNK_SIZE : ℕ := 8 * 1024 * 1024
def DOUBLES_PER_LOOP_ITER : ℕ := 16

/-- Errno values used by the source. -/
def EINTR : ℕ := 4
def eioErr : ℕ := 5
def ENOMEM : ℕ := 12
def EINVAL : ℕ := 22

/-! ### The vectorized reducer (vecsum2.c lines 298-341)

A `__m128d` holds two double lanes; `_mm_load_pd(buf + i)` loads `buf[i]`
into the low lane and `buf[i+1]` into the high lane; `_mm_add_pd` adds
lanewise.  Buffers are modelled as total functions `ℕ → ℚ` (the C code never
reads past `num_doubles` when the alignment precondition holds). -/

structure M128d where
  lo : ℚ
  hi : ℚ
deriving DecidableEq

def mm_set_pd (a b : ℚ) : M128d := { lo := b, hi := a }

def mm_load_pd (buf : ℕ → ℚ) (i : ℕ) : M128d := { lo := buf i, hi := buf (i + 1) }

def mm_add_pd (x y : M128d) : M128d := { lo := x.lo + y.lo, hi := x.hi + y.hi }

/-- The eight independent partial accumulators sum0..sum7 of vecsum. -/
structure VecsumState where
  sum0 : M128d
  sum1 : M128d
  sum2 : M128d
  sum3 : M128d
  sum4 : M128d
  sum5 : M128d
  sum6 : M128d
  sum7 : M128d
deriving DecidableEq

def vecsumInit : VecsumState :=
  { sum0 := mm_set_pd 0 0, sum1 := mm_set_pd 0 0, sum2 := mm_set_pd 0 0
    sum3 := mm_set_pd 0 0, sum4 := mm_set_pd 0 0, sum5 := mm_set_pd 0 0
    sum6 := mm_set_pd 0 0, sum7 := mm_set_pd 0 0 }

/-- One unrolled loop iteration of vecsum (lines 313-328): loads the sixteen
doubles at offsets i .. i+15 two at a time and folds them into the eight
accumulators. -/
def vecsum_step (buf : ℕ → ℚ) (i : ℕ) (s : VecsumState) : VecsumState :=
  { sum0 := mm_add_pd s.sum0 (mm_load_pd buf (i + 0))
    sum1 := mm_add_pd s.sum1 (mm_load_pd buf (i + 2))
    sum2 := mm_add_pd s.sum2 (mm_load_pd buf (i + 4))
    sum3 := mm_add_pd s.sum3 (mm_load_pd buf (i + 6))
    sum4 := mm_add_pd s.sum4 (mm_load_pd buf (i + 8))
    sum5 := mm_add_pd s.sum5 (mm_load_pd buf (i + 10))
    sum6 := mm_add_pd s.sum6 (mm_load_pd buf (i + 12))
    sum7 := mm_add_pd s.sum7 (mm_load_pd buf (i + 14)) }

/-- The for loop of vecsum: `k` remaining iterations, current index `i`. -/
def vecsum_loop (buf : ℕ → ℚ) : ℕ → ℕ → VecsumState → VecsumState
  | 0, _, s => s
  | Nat.succ k, i, s => vecsum_loop buf k (i + DOUBLES_PER_LOOP_ITER) (vecsum_step buf i s)

/-- The vectorized reducer (lines 298-341).  The C loop `for (i = 0;
i < num_doubles; i += 16)` executes `⌈num_doubles / 16⌉` iterations; the
final tree combine (lines 330-339) adds the eight accumulators pairwise and
returns the high lane plus the low lane of the result.  The unused `opts`
parameter of the C function is dropped. -/
def vecsum (buf : ℕ → ℚ) (num_doubles : ℕ) : ℚ :=
  let s := vecsum_loop buf
    ((num_doubles + DOUBLES_PER_LOOP_ITER - 1) / DOUBLES_PER_LOOP_ITER) 0 vecsumInit
  let x0 := mm_add_pd s.sum0 s.sum1
  let x1 := mm_add_pd s.sum2 s.sum3
  let x2 := mm_add_pd s.sum4 s.sum5
  let x3 := mm_add_pd s.sum6 s.sum7
  let x4 := mm_add_pd x0 x1
  let x5 := mm_add_pd x2 x3
  let x6 := mm_add_pd x4 x5
  x6.hi + x6.lo

/-- The naive sequential reference reducer (SIMPLE_VECSUM variant, lines
286-294): `sum = 0; for (i = 0; i < num_doubles; i++) sum += buf[i]`. -/
def vecsum_simple (buf : ℕ → ℚ) : ℕ → ℚ
  | 0 => 0
  | Nat.succ n => vecsum_simple buf n + buf n

/-! ### Correctness of the reducer -/

/-- Sum of all sixteen lanes of the accumulator state. -/
def stateTotal (s : VecsumState) : ℚ :=
  s.sum0.lo + s.sum0.hi + s.sum1.lo + s.sum1.hi +
  s.sum2.lo + s.sum2.hi + s.sum3.lo + s.sum3.hi +
  s.sum4.lo + s.sum4.hi + s.sum5.lo + s.sum5.hi +
  s.sum6.lo + s.sum6.hi + s.sum7.lo + s.sum7.hi

lemma stateTotal_step (buf : ℕ → ℚ) (i : ℕ) (s : VecsumState) :
    stateTotal (vecsum_step buf i s) =
      stateTotal s + ∑ j ∈ Finset.Ico i (i + 16), buf j := by
  rw [Finset.sum_Ico_eq_sum_range]
  simp [vecsum_step, stateTotal, mm_add_pd, mm_load_pd, Finset.sum_range_succ]
  ring

lemma stateTotal_loop (buf : ℕ → ℚ) :
    ∀ (k i : ℕ) (s : VecsumState),
      stateTotal (vecsum_loop buf k i s) =
        stateTotal s + ∑ j ∈ Finset.Ico i (i + 16 * k), buf j := by
  intro k
  induction k with
  | zero => intro i s; simp [vecsum_loop]
  | succ k ih =>
    intro i s
    rw [vecsum_loop, ih, stateTotal_step, add_assoc]
    congr 1
    rw [show i + DOUBLES_PER_LOOP_ITER = i + 16 from rfl,
        Finset.sum_Ico_consecutive _ (by omega) (by omega),
        show i + 16 + 16 * k = i + 16 * (k + 1) from by ring]

lemma vecsum_tree_combine (buf : ℕ → ℚ) (n : ℕ) :
    vecsum buf n =
      stateTotal (vecsum_loop buf ((n + DOUBLES_PER_LOOP_ITER - 1) / DOUBLES_PER_LOOP_ITER)
        0 vecsumInit) := by
  simp [vecsum, stateTotal, mm_add_pd]
  ring

/-- Shared correctness lemma: on a buffer whose element count is a multiple of
the unroll factor, the vectorized reducer computes the exact sum of the
first `n` elements. -/
lemma vecsum_eq_sum_range (buf : ℕ → ℚ) (n : ℕ) (h : n % 16 = 0) :
    vecsum buf n = ∑ j ∈ Finset.range n, buf j := by
  rw [vecsum_tree_combine, stateTotal_loop]
  have hInit : stateTotal vecsumInit = 0 := by
    simp [vecsumInit, stateTotal, mm_set_pd]
  have hIter : 16 * ((n + DOUBLES_PER_LOOP_ITER - 1) / DOUBLES_PER_LOOP_ITER) = n := by
    show 16 * ((n + 16 - 1) / 16) = n
    omega
  rw [hInit, zero_add, hIter, Nat.zero_add, Finset.range_eq_Ico]

lemma vecsum_simple_eq_sum_range (buf : ℕ → ℚ) (n : ℕ) :
    vecsum_simple buf n = ∑ j ∈ Finset.range n, buf j := by
  induction n with
  | zero => simp [vecsum_simple]
  | succ n ih => rw [vecsum_simple, ih, Finset.sum_range_succ]

/-- The reducer applied to a constant-1.0 buffer yields the element count. -/
lemma vecsum_const_one (n : ℕ) (h : n % 16 = 0) :
    vecsum (fun _ => (1 : ℚ)) n = n := by
  rw [vecsum_eq_sum_range _ n h]
  simp

/-- C1: the vectorized reducer agrees with the naive sequential reference
reducer on every buffer whose element count is a multiple of 16, under exact
(rational) arithmetic. -/
theorem vecsum_refines_simple (buf : ℕ → ℚ) (n : ℕ) (h : n % 16 = 0) :
    vecsum buf n = vecsum_simple buf n := by
  rw [vecsum_eq_sum_range buf n h, vecsum_simple_eq_sum_range]

/-- Witness for C1 at the concrete buffer i ↦ i and length 16. -/
theorem vecsum_refines_simple_witness :
    16 % 16 = 0 ∧
      vecsum (fun i => (i : ℚ)) 16 = vecsum_simple (fun i => (i : ℚ)) 16 :=
  ⟨rfl, vecsum_refines_simple (fun i => (i : ℚ)) 16 rfl⟩

/-! ### Configuration (vecsum2.c lines 94-180)

The environment variables VECSUM_PATH, VECSUM_PASSES, VECSUM_TYPE and
VECSUM_RPC_ADDRESS are modelled as optional values; `passesVal` is the
integer `atoi` produced from VECSUM_PASSES when that variable is set. -/

inductive VecsumType where
  | libhdfs
  | zcr
  | localTy
deriving DecidableEq

/-- ASCII lowering of one character, as the C locale strcasecmp does. -/
def lowerChar (c : Char) : Char :=
  if 65 ≤ c.toNat ∧ c.toNat ≤ 90 then Char.ofNat (c.toNat + 32) else c

/-- strcasecmp equality: the two strings agree after ASCII case folding. -/
def eqIgnoreCase (a b : String) : Bool :=
  a.data.map lowerChar == b.data.map lowerChar

/-- parse_vecsum_type (lines 102-112); strcasecmp is case-insensitive string
equality, and the C value -1 for an unrecognized name becomes none. -/
def parse_vecsum_type (s : String) : Option VecsumType :=
  if eqIgnoreCase s "libhdfs" then some VecsumType.libhdfs
  else if eqIgnoreCase s "zcr" then some VecsumType.zcr
  else if eqIgnoreCase s "local" then some VecsumType.localTy
  else none

structure Env where
  path : Option String
  passesVal : Option Int
  ty : Option String
  rpcAddress : Option String

structure Opts where
  path : String
  passes : Int
  ty : VecsumType
  rpc_address : String
deriving DecidableEq

/-- options_create (lines 128-180): fails (returns NULL) when the path or the
pass count is missing, when the pass count is not positive, or when the type
name is unrecognized; the RPC address defaults to the string default. -/
def options_create (env : Env) : Option Opts :=
  match env.path with
  | none => none
  | some p =>
    match env.passesVal with
    | none => none
    | some n =>
      if n ≤ 0 then none
      else
        match env.ty with
        | none => none
        | some tys =>
          match parse_vecsum_type tys with
          | none => none
          | some ty =>
            some { path := p, passes := n, ty := ty
                   rpc_address := env.rpcAddress.getD "default" }

/-! ### The external world

Outcomes of the HDFS and OS calls the benchmark makes are oracle inputs: the
target file (byte length plus its contents viewed as doubles) and a success
flag per fallible call.  Connection success may depend on the namenode
address handed to hdfsBuilderSetNameNode. -/

structure World where
  fileLen : ℕ
  fileData : ℕ → ℚ
  connectOk : String → Bool
  pathInfoOk : Bool
  openOk : Bool
  fstatOk : Bool
  mmapOk : Bool
  allocOk : Bool
  readOk : Bool
  seekOk : Bool

/-- The chunk of doubles starting at byte offset pos of the target file. -/
def chunkAt (w : World) (pos : ℕ) : ℕ → ℚ :=
  fun j => w.fileData (pos / 8 + j)

/-- Distinct failure exits of test_data_create and vecsum_local, identified
by the message each prints. -/
inductive OpenErr where
  | connectFail
  | pathInfoFail
  | emptyTarget
  | unaligned
  | openFail
  | fstatFail
  | mmapFail
deriving DecidableEq

/-- test_data_create (lines 206-266): connect to the namenode given by the
RPC address, look up path metadata, reject a zero-length file, reject a
length that is not a multiple of VECSUM_CHUNK_SIZE, then open the file.
Returns the file length on success. -/
def test_data_create (opts : Opts) (w : World) : Except OpenErr ℕ :=
  if w.connectOk opts.rpc_address = false then Except.error OpenErr.connectFail
  else if w.pathInfoOk = false then Except.error OpenErr.pathInfoFail
  else if w.fileLen = 0 then Except.error OpenErr.emptyTarget
  else if w.fileLen % VECSUM_CHUNK_SIZE ≠ 0 then Except.error OpenErr.unaligned
  else if w.openOk = false then Except.error OpenErr.openFail
  else Except.ok w.fileLen

/-! ### Streaming strategy (vecsum_normal_loop, lines 444-470)

Under a well-behaved stream (reads deliver data until end of file, no
interruptions) hdfsReadFully returns min(remaining, requested) bytes into the
chunk buffer.  The loop then treats 0 as end of stream, a short count as a
fatal partial read, and a full chunk as input to the reducer. -/

def vecsum_normal_loop_go (w : World) (pos : ℕ) (sum : ℚ) : Except ℕ (ℚ × ℕ) :=
  if w.readOk = false then Except.error eioErr
  else if h0 : min (w.fileLen - pos) NORMAL_READ_CHUNK_SIZE = 0 then Except.ok (sum, pos)
  else if h1 : min (w.fileLen - pos) NORMAL_READ_CHUNK_SIZE < NORMAL_READ_CHUNK_SIZE then
    Except.error EINVAL
  else
    vecsum_normal_loop_go w (pos + NORMAL_READ_CHUNK_SIZE)
      (sum + vecsum (chunkAt w pos) (NORMAL_READ_CHUNK_SIZE / 8))
termination_by w.fileLen - pos
decreasing_by
  simp only [NORMAL_READ_CHUNK_SIZE] at h0 h1 ⊢
  omega

/-- vecsum_libhdfs pass loop (lines 483-491): run the normal loop once per
pass, record the printed per-pass sum, and seek back to offset zero; the
return value of hdfsSeek is ignored by the source, so a failed seek leaves
the position where the pass ended.  Errors carry the sums already printed. -/
def vecsum_libhdfs_go (w : World) : ℕ → ℕ → List ℚ → Except (ℕ × List ℚ) (List ℚ)
  | 0, _, sums => Except.ok sums
  | Nat.succ n, pos, sums =>
    match vecsum_normal_loop_go w pos 0 with
    | Except.error e => Except.error (e, sums)
    | Except.ok (s, posEnd) =>
      vecsum_libhdfs_go w n (if w.seekOk then 0 else posEnd) (sums ++ [s])

/-- vecsum_libhdfs (lines 472-493): allocate the reused chunk buffer, then
run the passes. -/
def vecsum_libhdfs_run (w : World) (passes : ℕ) : Except (ℕ × List ℚ) (List ℚ) :=
  if w.allocOk = false then Except.error (ENOMEM, [])
  else vecsum_libhdfs_go w passes 0 []

/-! ### Zero-copy strategy (vecsum_zcr_loop, lines 344-382)

The loop is embedded over an abstract list of hadoopReadZero outcomes: a
NULL return (failure), a buffer whose pointer is NULL (end of stream), or a
buffer with data of a given length. -/

inductive ZcrRead where
  | rzFail (e : ℕ)
  | rzEos
  | rzChunk (data : ℕ → ℚ) (len : ℕ)

/-- vecsum_zcr_loop (lines 344-382): fail when hadoopReadZero fails, stop
with the accumulated sum when the returned buffer is NULL, fail with EINVAL
when the chunk is shorter than the requested ZCR_READ_CHUNK_SIZE, and
otherwise reduce ZCR_READ_CHUNK_SIZE/8 doubles and continue.  An exhausted
outcome list behaves as end of stream. -/
def vecsum_zcr_loop (reads : List ZcrRead) (sum : ℚ) : Except ℕ ℚ :=
  match reads with
  | [] => Except.ok sum
  | ZcrRead.rzFail e :: _ => Except.error e
  | ZcrRead.rzEos :: _ => Except.ok sum
  | ZcrRead.rzChunk data len :: rest =>
    if len < ZCR_READ_CHUNK_SIZE then Except.error EINVAL
    else vecsum_zcr_loop rest (sum + vecsum data (ZCR_READ_CHUNK_SIZE / 8))

/-- The outcome stream a well-behaved transport produces for one pass
starting at byte offset pos: full chunks while at least a chunk remains, a
short final chunk when the length is unaligned, then end of stream. -/
def zcrStream (w : World) (pos : ℕ) : List ZcrRead :=
  if w.readOk = false then [ZcrRead.rzFail eioErr]
  else
    ((List.range ((w.fileLen - pos) / ZCR_READ_CHUNK_SIZE)).map
      (fun k => ZcrRead.rzChunk (chunkAt w (pos + k * ZCR_READ_CHUNK_SIZE)) ZCR_READ_CHUNK_SIZE)) ++
    (if (w.fileLen - pos) % ZCR_READ_CHUNK_SIZE ≠ 0 then
      [ZcrRead.rzChunk (chunkAt w (pos + ((w.fileLen - pos) / ZCR_READ_CHUNK_SIZE) * ZCR_READ_CHUNK_SIZE))
        ((w.fileLen - pos) % ZCR_READ_CHUNK_SIZE)]
    else []) ++ [ZcrRead.rzEos]

/-- vecsum_zcr pass loop (lines 406-414); as for the streaming strategy the
hdfsSeek result is ignored, and a completed pass always ends at EOF. -/
def vecsum_zcr_go (w : World) : ℕ → ℕ → List ℚ → Except (ℕ × List ℚ) (List ℚ)
  | 0, _, sums => Except.ok sums
  | Nat.succ n, pos, sums =>
    match vecsum_zcr_loop (zcrStream w pos) 0 with
    | Except.error e => Except.error (e, sums)
    | Except.ok s =>
      vecsum_zcr_go w n (if w.seekOk then 0 else w.fileLen) (sums ++ [s])

/-- vecsum_zcr (lines 384-420): allocate the read options, then run the
passes. -/
def vecsum_zcr_run (w : World) (passes : ℕ) : Except (ℕ × List ℚ) (List ℚ) :=
  if w.allocOk = false then Except.error (ENOMEM, [])
  else vecsum_zcr_go w passes 0 []

/-! ### Memory-mapped local strategy (vecsum_local, lines 495-546) -/

/-- vecsum_local (lines 495-546): open, fstat, reject an unaligned length,
mmap the whole file, then reduce the entire mapping once per pass.  There is
no zero-length check: a zero length passes the alignment test and proceeds
to mmap. -/
def vecsum_local_run (w : World) (passes : ℕ) : Except OpenErr (List ℚ) :=
  if w.openOk = false then Except.error OpenErr.openFail
  else if w.fstatOk = false then Except.error OpenErr.fstatFail
  else if w.fileLen % VECSUM_CHUNK_SIZE ≠ 0 then Except.error OpenErr.unaligned
  else if w.mmapOk = false then Except.error OpenErr.mmapFail
  else Except.ok ((List.range passes).map (fun _ => vecsum w.fileData (w.fileLen / 8)))

/-- The errno vecsum_local turns each failure into (eioErr for open, fstat and
mmap failures, EINVAL for an unaligned length). -/
def localErrno : OpenErr → ℕ
  | OpenErr.unaligned => EINVAL
  | _ => eioErr

/-! ### main (vecsum2.c lines 565-618) -/

/-- check_byte_size (lines 268-282). -/
def check_byte_size (byte_size : ℕ) : ℕ :=
  if byte_size % 8 ≠ 0 then EINVAL
  else if (byte_size / 8) % DOUBLES_PER_LOOP_ITER ≠ 0 then EINVAL
  else 0

structure RunResult where
  exit : ℕ
  sums : List ℚ
  reportedBytes : Option Int
deriving DecidableEq

/-- main (lines 565-618): validate the compile-time chunk sizes, resolve the
options, create the remote session for the non-local strategies, start the
stopwatch, run the selected strategy, and on success stop the stopwatch with
target length times pass count as the processed byte total (for the local
strategy the length comes from a fresh stat call). -/
def main_run (env : Env) (w : World) : RunResult :=
  if check_byte_size VECSUM_CHUNK_SIZE ≠ 0 ∨ check_byte_size ZCR_READ_CHUNK_SIZE ≠ 0 ∨
      check_byte_size NORMAL_READ_CHUNK_SIZE ≠ 0 then
    { exit := 1, sums := [], reportedBytes := none }
  else
    match options_create env with
    | none => { exit := 1, sums := [], reportedBytes := none }
    | some opts =>
      let tdataRes : Except OpenErr Unit :=
        if opts.ty ≠ VecsumType.localTy then (test_data_create opts w).map (fun _ => ())
        else Except.ok ()
      match tdataRes with
      | Except.error _ => { exit := 1, sums := [], reportedBytes := none }
      | Except.ok _ =>
        if w.allocOk = false then { exit := 1, sums := [], reportedBytes := none }
        else
          let stratRes : Except (ℕ × List ℚ) (List ℚ) :=
            match opts.ty with
            | VecsumType.libhdfs => vecsum_libhdfs_run w opts.passes.toNat
            | VecsumType.zcr => vecsum_zcr_run w opts.passes.toNat
            | VecsumType.localTy =>
              match vecsum_local_run w opts.passes.toNat with
              | Except.error e => Except.error (localErrno e, [])
              | Except.ok sums => Except.ok sums
          match stratRes with
          | Except.error es => { exit := es.1, sums := es.2, reportedBytes := none }
          | Except.ok sums =>
            let lenOpt : Option Int :=
              match opts.ty with
              | VecsumType.localTy => if w.fstatOk then some (w.fileLen : Int) else none
              | _ => some (w.fileLen : Int)
            { exit := 0, sums := sums
              reportedBytes := lenOpt.map (fun l => l * opts.passes) }

/-! ### Event traces

To state the temporal claims, the order of the observable operations main
performs is modelled as a list of events.  The trace definitions mirror the
control flow of the result definitions above exactly: an event is appended
when the corresponding call in vecsum2.c succeeds. -/

inductive Event where
  | connectEstablished
  | sizeResolved
  | fileOpened
  | mappingCreated
  | stopwatchStart
  | chunkRead
  | chunkReduced
  | stopwatchStop
deriving DecidableEq

/-- Setup operations: connection establishment, file open, size resolution
and mapping creation. -/
def isSetupEvent : Event → Bool
  | Event.connectEstablished => true
  | Event.sizeResolved => true
  | Event.fileOpened => true
  | Event.mappingCreated => true
  | _ => false

def isChunkReadEvent : Event → Bool
  | Event.chunkRead => true
  | _ => false

def isChunkReducedEvent : Event → Bool
  | Event.chunkReduced => true
  | _ => false

/-- Events of test_data_create: connect, resolve metadata, open (lines
206-266); an event appears only when the call succeeded. -/
def test_data_events (opts : Opts) (w : World) : List Event :=
  if w.connectOk opts.rpc_address = false then []
  else Event.connectEstablished ::
    (if w.pathInfoOk = false then []
     else Event.sizeResolved ::
       (if w.fileLen = 0 then []
        else if w.fileLen % VECSUM_CHUNK_SIZE ≠ 0 then []
        else if w.openOk = false then []
        else [Event.fileOpened]))

/-- Events of one streaming pass (lines 444-470): a chunk-read event per
completed hdfsReadFully, a reduce event per full chunk handed to vecsum. -/
def vecsum_normal_loop_events (w : World) (pos : ℕ) : List Event :=
  if w.readOk = false then []
  else if h0 : min (w.fileLen - pos) NORMAL_READ_CHUNK_SIZE = 0 then []
  else if h1 : min (w.fileLen - pos) NORMAL_READ_CHUNK_SIZE < NORMAL_READ_CHUNK_SIZE then
    [Event.chunkRead]
  else
    Event.chunkRead :: Event.chunkReduced ::
      vecsum_normal_loop_events w (pos + NORMAL_READ_CHUNK_SIZE)
termination_by w.fileLen - pos
decreasing_by
  simp only [NORMAL_READ_CHUNK_SIZE] at h0 h1 ⊢
  omega

/-- Events of the streaming pass loop (lines 483-491). -/
def vecsum_libhdfs_events_go (w : World) : ℕ → ℕ → List Event
  | 0, _ => []
  | Nat.succ n, pos =>
    vecsum_normal_loop_events w pos ++
      match vecsum_normal_loop_go w pos 0 with
      | Except.error _ => []
      | Except.ok (_, posEnd) =>
        vecsum_libhdfs_events_go w n (if w.seekOk then 0 else posEnd)

def vecsum_libhdfs_events (w : World) (passes : ℕ) : List Event :=
  if w.allocOk = false then [] else vecsum_libhdfs_events_go w passes 0

/-- Events of the zero-copy loop over one outcome stream (lines 344-382). -/
def vecsum_zcr_loop_events : List ZcrRead → List Event
  | [] => []
  | ZcrRead.rzFail _ :: _ => []
  | ZcrRead.rzEos :: _ => []
  | ZcrRead.rzChunk _ len :: rest =>
    if len < ZCR_READ_CHUNK_SIZE then [Event.chunkRead]
    else Event.chunkRead :: Event.chunkReduced :: vecsum_zcr_loop_events rest

/-- Events of the zero-copy pass loop (lines 406-414). -/
def vecsum_zcr_events_go (w : World) : ℕ → ℕ → List Event
  | 0, _ => []
  | Nat.succ n, pos =>
    vecsum_zcr_loop_events (zcrStream w pos) ++
      match vecsum_zcr_loop (zcrStream w pos) 0 with
      | Except.error _ => []
      | Except.ok _ => vecsum_zcr_events_go w n (if w.seekOk then 0 else w.fileLen)

def vecsum_zcr_events (w : World) (passes : ℕ) : List Event :=
  if w.allocOk = false then [] else vecsum_zcr_events_go w passes 0

/-- Events of vecsum_local (lines 495-546): open, fstat, mmap happen inside
the strategy call; each pass then reduces the whole mapping once. -/
def vecsum_local_events (w : World) (passes : ℕ) : List Event :=
  if w.openOk = false then []
  else Event.fileOpened ::
    (if w.fstatOk = false then []
     else Event.sizeResolved ::
       (if w.fileLen % VECSUM_CHUNK_SIZE ≠ 0 then []
        else if w.mmapOk = false then []
        else Event.mappingCreated ::
          (List.range passes).flatMap (fun _ => [Event.chunkRead, Event.chunkReduced])))

/-- The trace of one run of main (lines 565-618): session creation for the
remote strategies, stopwatch start, the strategy events, and stopwatch stop
when the run succeeded and the reported length was available. -/
def main_events (env : Env) (w : World) : List Event :=
  if check_byte_size VECSUM_CHUNK_SIZE ≠ 0 ∨ check_byte_size ZCR_READ_CHUNK_SIZE ≠ 0 ∨
      check_byte_size NORMAL_READ_CHUNK_SIZE ≠ 0 then []
  else
    match options_create env with
    | none => []
    | some opts =>
      let tdataRes : Except OpenErr Unit :=
        if opts.ty ≠ VecsumType.localTy then (test_data_create opts w).map (fun _ => ())
        else Except.ok ()
      (if opts.ty ≠ VecsumType.localTy then test_data_events opts w else []) ++
        match tdataRes with
        | Except.error _ => []
        | Except.ok _ =>
          if w.allocOk = false then []
          else Event.stopwatchStart ::
            ((match opts.ty with
              | VecsumType.libhdfs => vecsum_libhdfs_events w opts.passes.toNat
              | VecsumType.zcr => vecsum_zcr_events w opts.passes.toNat
              | VecsumType.localTy => vecsum_local_events w opts.passes.toNat) ++
             (match opts.ty with
              | VecsumType.libhdfs =>
                match vecsum_libhdfs_run w opts.passes.toNat with
                | Except.error _ => []
                | Except.ok _ => [Event.stopwatchStop]
              | VecsumType.zcr =>
                match vecsum_zcr_run w opts.passes.toNat with
                | Except.error _ => []
                | Except.ok _ => [Event.stopwatchStop]
              | VecsumType.localTy =>
                match vecsum_local_run w opts.passes.toNat with
                | Except.error _ => []
                | Except.ok _ => if w.fstatOk then [Event.stopwatchStop] else []))

/-- Among the events satisfying p or equal to the marker m, m comes first. -/
def firstAmong (tr : List Event) (m : Event) (p : Event → Bool) : Prop :=
  (tr.filter (fun e => p e || e == m)).head? = some m

/-- Among the events satisfying p or equal to the marker m, m comes last. -/
def lastAmong (tr : List Event) (m : Event) (p : Event → Bool) : Prop :=
  (tr.filter (fun e => p e || e == m)).getLast? = some m

end Vecsum2

namespace ByteCount

/-! ### ByteBufferRecordReader read statistics (ByteBufferRecordReader.java)

The DFSInputStream ReadStatistics snapshot carries four absolute counters;
the reader folds the delta against its previous snapshot into four
externally visible job counters and stores the new snapshot as the baseline
(updateStats, lines 179-190). -/

structure ReadStatistics where
  totalBytesRead : ℤ
  totalLocalBytesRead : ℤ
  totalShortCircuitBytesRead : ℤ
  totalZeroCopyBytesRead : ℤ
deriving DecidableEq

/-- The externally visible READ_COUNTER counters of the task context. -/
structure Counters where
  bytesRead : ℤ
  localBytesRead : ℤ
  scrBytesRead : ℤ
  zcrBytesRead : ℤ
deriving DecidableEq

/-- Reader-side state: the visible counters plus the previous snapshot. -/
structure ReaderState where
  counters : Counters
  readStats : ReadStatistics
deriving DecidableEq

/-- updateStats (lines 179-190): increment each counter by new minus
previous, then replace the stored snapshot with the new one. -/
def updateStats (st : ReaderState) (newStats : ReadStatistics) : ReaderState :=
  { counters :=
      { bytesRead := st.counters.bytesRead +
          (newStats.totalBytesRead - st.readStats.totalBytesRead)
        localBytesRead := st.counters.localBytesRead +
          (newStats.totalLocalBytesRead - st.readStats.totalLocalBytesRead)
        scrBytesRead := st.counters.scrBytesRead +
          (newStats.totalShortCircuitBytesRead - st.readStats.totalShortCircuitBytesRead)
        zcrBytesRead := st.counters.zcrBytesRead +
          (newStats.totalZeroCopyBytesRead - st.readStats.totalZeroCopyBytesRead) }
    readStats := newStats }

/-- Componentwise order on snapshots: non-decreasing counters. -/
def statsLe (a b : ReadStatistics) : Prop :=
  a.totalBytesRead ≤ b.totalBytesRead ∧
  a.totalLocalBytesRead ≤ b.totalLocalBytesRead ∧
  a.totalShortCircuitBytesRead ≤ b.totalShortCircuitBytesRead ∧
  a.totalZeroCopyBytesRead ≤ b.totalZeroCopyBytesRead

instance (a b : ReadStatistics) : Decidable (statsLe a b) := by
  unfold statsLe; infer_instance

/-- Componentwise order on the visible counters. -/
def countersLe (a b : Counters) : Prop :=
  a.bytesRead ≤ b.bytesRead ∧ a.localBytesRead ≤ b.localBytesRead ∧
  a.scrBytesRead ≤ b.scrBytesRead ∧ a.zcrBytesRead ≤ b.zcrBytesRead

instance (a b : Counters) : Decidable (countersLe a b) := by
  unfold countersLe; infer_instance

lemma foldl_updateStats_closed (snaps : List ReadStatistics) :
    ∀ st : ReaderState,
      snaps.foldl updateStats st =
        { counters := (updateStats st (snaps.getLastD st.readStats)).counters
          readStats := snaps.getLastD st.readStats } := by
  induction snaps with
  | nil =>
    intro st
    obtain ⟨⟨c1, c2, c3, c4⟩, ⟨b1, b2, b3, b4⟩⟩ := st
    simp [updateStats]
  | cons s rest ih =>
    intro st
    rw [List.foldl_cons, ih, List.getLastD_cons]
    simp only [updateStats]
    obtain ⟨⟨c1, c2, c3, c4⟩, ⟨b1, b2, b3, b4⟩⟩ := st
    simp only [ReaderState.mk.injEq, Counters.mk.injEq]
    refine ⟨⟨?_, ?_, ?_, ?_⟩, trivial⟩ <;> ring

/-- C8: processing snapshots s1..sn from baseline b telescopes: the total
added to each externally visible counter is exactly sn minus b, the stored
baseline ends at sn, and a single update whose snapshot dominates the stored
baseline never decreases any visible counter (delta at least zero). -/
theorem updateStats_telescoping (c0 : Counters) (b : ReadStatistics)
    (snaps : List ReadStatistics) :
    ((snaps.foldl updateStats { counters := c0, readStats := b }).counters.bytesRead -
        c0.bytesRead = (snaps.getLastD b).totalBytesRead - b.totalBytesRead ∧
      (snaps.foldl updateStats { counters := c0, readStats := b }).counters.localBytesRead -
        c0.localBytesRead = (snaps.getLastD b).totalLocalBytesRead - b.totalLocalBytesRead ∧
      (snaps.foldl updateStats { counters := c0, readStats := b }).counters.scrBytesRead -
        c0.scrBytesRead =
          (snaps.getLastD b).totalShortCircuitBytesRead - b.totalShortCircuitBytesRead ∧
      (snaps.foldl updateStats { counters := c0, readStats := b }).counters.zcrBytesRead -
        c0.zcrBytesRead = (snaps.getLastD b).totalZeroCopyBytesRead - b.totalZeroCopyBytesRead ∧
      (snaps.foldl updateStats { counters := c0, readStats := b }).readStats =
        snaps.getLastD b) ∧
    (∀ (st : ReaderState) (newStats : ReadStatistics),
      statsLe st.readStats newStats → countersLe st.counters (updateStats st newStats).counters) := by
  constructor
  · rw [foldl_updateStats_closed]
    refine ⟨by simp [updateStats], by simp [updateStats],
      by simp [updateStats], by simp [updateStats], rfl⟩
  · intro st newStats hle
    obtain ⟨h1, h2, h3, h4⟩ := hle
    exact ⟨by simp [updateStats]; linarith, by simp [updateStats]; linarith,
      by simp [updateStats]; linarith, by simp [updateStats]; linarith⟩

/-- Concrete data for the C8 witness. -/
def snapA : ReadStatistics := ⟨3, 2, 1, 0⟩
def snapB : ReadStatistics := ⟨9, 5, 4, 2⟩
def baseB : ReadStatistics := ⟨1, 1, 0, 0⟩
def ctr0 : Counters := ⟨7, 0, 0, 0⟩
def st0 : ReaderState := ⟨ctr0, baseB⟩

/-- Witness for C8 at a concrete baseline, two snapshots, and one dominated
update step. -/
theorem updateStats_telescoping_witness :
    (([snapA, snapB].foldl updateStats
        { counters := ctr0, readStats := baseB }).counters.bytesRead - ctr0.bytesRead =
      ([snapA, snapB].getLastD baseB).totalBytesRead - baseB.totalBytesRead) ∧
    statsLe st0.readStats snapA ∧
    countersLe st0.counters (updateStats st0 snapA).counters :=
  ⟨(updateStats_telescoping ctr0 baseB [snapA, snapB]).1.1, by decide,
    (updateStats_telescoping ctr0 baseB []).2 st0 snapA (by decide)⟩

end ByteCount

namespace Vecsum2

/-! ### hdfsReadFully under an arbitrary read sequence (lines 422-442)

For claim C4 the block-filling loop is embedded over an abstract list of
hdfsRead outcomes: an interrupted read (return -1 with errno EINTR), a hard
failure (return -1 with another errno), end of stream (return 0), or n bytes
of data.  The embedding reproduces the source statement for statement: on an
interrupted read the code does NOT retry cleanly; it falls through to the
accounting lines, so nread gains -1, the remaining length gains +1 and the
destination pointer moves back one byte. -/

inductive ReadOutcome where
  | intr
  | hardFail
  | eofR
  | bytes (n : ℕ)
deriving DecidableEq

/-- hdfsReadFully (lines 422-442).  Arguments: remaining requested length,
accumulated nread, bytes actually stored into the buffer so far (ghost
observer, not a C variable).  Returns the pair (return value, bytes actually
stored).  An exhausted outcome list behaves as a stream forever at EOF. -/
def hdfsReadFully_go (length nread : Int) (placed : ℕ) : List ReadOutcome → Int × ℕ
  | [] => (nread, placed)
  | r :: rest =>
    if length ≤ 0 then (nread, placed)
    else
      match r with
      | ReadOutcome.hardFail => (-1, placed)
      | ReadOutcome.eofR => (nread, placed)
      | ReadOutcome.intr => hdfsReadFully_go (length + 1) (nread - 1) placed rest
      | ReadOutcome.bytes n => hdfsReadFully_go (length - n) (nread + n) (placed + n) rest

def hdfsReadFully_model (length : Int) (reads : List ReadOutcome) : Int × ℕ :=
  hdfsReadFully_go length 0 0 reads

/-- C4 failing input: one interrupted read followed by a full 8 MiB read and
end of stream.  The loop reports 8388607 bytes while 8388608 bytes were
stored, so the reported per-chunk count disagrees with the bytes placed and
the full block is then rejected as a partial read by vecsum_normal_loop. -/
theorem hdfsReadFully_eintr_miscount :
    hdfsReadFully_model 8388608
        [ReadOutcome.intr, ReadOutcome.bytes 8388608, ReadOutcome.eofR] =
      (8388607, 8388608) ∧ (8388607 : Int) ≠ (8388608 : Int) := by
  constructor
  · rfl
  · decide

/-- C5: in the zero-copy loop, a chunk shorter than the requested
ZCR_READ_CHUNK_SIZE aborts the pass with EINVAL regardless of the chunk data
and of the rest of the stream (so the chunk is never reduced and no sum is
reported), while a NULL buffer ends the pass normally with the sum
accumulated so far. -/
theorem zcr_partial_fatal_null_eos (d : ℕ → ℚ) (len : ℕ) (rest : List ZcrRead) (acc : ℚ) :
    (len < ZCR_READ_CHUNK_SIZE →
      vecsum_zcr_loop (ZcrRead.rzChunk d len :: rest) acc = Except.error EINVAL) ∧
    vecsum_zcr_loop (ZcrRead.rzEos :: rest) acc = Except.ok acc := by
  constructor
  · intro h
    simp [vecsum_zcr_loop, h]
  · rfl

/-- The reducer on a zero-length buffer returns zero. -/
lemma vecsum_zero_len (buf : ℕ → ℚ) : vecsum buf 0 = 0 := by
  rw [vecsum_eq_sum_range buf 0 rfl]
  simp

lemma test_data_create_err_of_unaligned (opts : Opts) (w : World)
    (h : w.fileLen % VECSUM_CHUNK_SIZE ≠ 0) :
    ∃ e, test_data_create opts w = Except.error e := by
  unfold test_data_create
  split_ifs with h1 h2 h3
  · exact ⟨_, rfl⟩
  · exact ⟨_, rfl⟩
  · exact ⟨_, rfl⟩
  · exact ⟨_, rfl⟩

/-- C3: a target whose byte length is not a multiple of the fixed 8 MiB
chunk size is rejected at open time by every strategy: the remote session
constructor fails with the unaligned error (given that connection and
metadata lookup succeed, the earlier failure points), the local strategy
fails with the unaligned error before creating its mapping (given that open
and fstat succeed), and main performs no pass (no per-pass sum is printed)
and exits non-zero, whatever the configuration. -/
theorem unaligned_rejected_every_strategy (opts : Opts) (env : Env) (w : World)
    (h : w.fileLen % VECSUM_CHUNK_SIZE ≠ 0) :
    (w.connectOk opts.rpc_address = true → w.pathInfoOk = true →
      test_data_create opts w = Except.error OpenErr.unaligned) ∧
    (w.openOk = true → w.fstatOk = true →
      ∀ p, vecsum_local_run w p = Except.error OpenErr.unaligned) ∧
    ((main_run env w).sums = [] ∧ (main_run env w).exit ≠ 0) := by
  have hz : w.fileLen ≠ 0 := by
    intro hz
    rw [hz] at h
    exact h (by decide)
  refine ⟨?_, ?_, ?_⟩
  · intro hc hp
    simp [test_data_create, hc, hp, hz, h]
  · intro ho hf p
    simp [vecsum_local_run, ho, hf, h]
  · have hguard : ¬(check_byte_size VECSUM_CHUNK_SIZE ≠ 0 ∨
        check_byte_size ZCR_READ_CHUNK_SIZE ≠ 0 ∨
        check_byte_size NORMAL_READ_CHUNK_SIZE ≠ 0) := by decide
    unfold main_run
    rw [if_neg hguard]
    rcases hoc : options_create env with _ | opts2
    · refine ⟨rfl, ?_⟩
      show (1 : ℕ) ≠ 0
      decide
    · rcases hty : opts2.ty with _ | _ | _
      · obtain ⟨e, he⟩ := test_data_create_err_of_unaligned opts2 w h
        simp [hty, he, Except.map]
      · obtain ⟨e, he⟩ := test_data_create_err_of_unaligned opts2 w h
        simp [hty, he, Except.map]
      · rcases ho : w.openOk with _ | _
        · rcases ha : w.allocOk with _ | _ <;>
            simp [hty, ha, vecsum_local_run, ho, localErrno, eioErr]
        · rcases hf : w.fstatOk with _ | _ <;> rcases ha : w.allocOk with _ | _ <;>
            simp [hty, ha, vecsum_local_run, ho, hf, h, localErrno, eioErr, EINVAL]

/-- Concrete run for the C3 witness: a target of 8 MiB plus one byte. -/
def w3 : World :=
  ⟨8388609, fun _ => 0, fun _ => true, true, true, true, true, true, true, true⟩

def opts3 : Opts := ⟨"f", 1, VecsumType.libhdfs, "default"⟩

def env3 : Env := ⟨some "f", some 1, some "libhdfs", none⟩

/-- Witness for C3 at the 8 MiB + 1 byte target from the spec. -/
theorem unaligned_rejected_every_strategy_witness :
    w3.fileLen % VECSUM_CHUNK_SIZE ≠ 0 ∧
    test_data_create opts3 w3 = Except.error OpenErr.unaligned ∧
    vecsum_local_run w3 1 = Except.error OpenErr.unaligned ∧
    (main_run env3 w3).exit ≠ 0 :=
  ⟨by decide,
    (unaligned_rejected_every_strategy opts3 env3 w3 (by decide)).1 rfl rfl,
    (unaligned_rejected_every_strategy opts3 env3 w3 (by decide)).2.1 rfl rfl 1,
    (unaligned_rejected_every_strategy opts3 env3 w3 (by decide)).2.2.2⟩

/-- C9 amended: only the remote strategies check for an empty target.  With
connection and metadata lookup succeeding, a zero-length target makes
test_data_create (used by the Streaming and Zero-Copy strategies) fail with
the empty-target error before any pass; the local Memory-Mapped strategy has
no such check: it never reports the empty-target condition, and when open,
fstat and the zero-length mmap succeed it runs its passes and reports sum 0
for each. -/
theorem empty_target_remote_only (opts : Opts) (w : World) (h : w.fileLen = 0) :
    (w.connectOk opts.rpc_address = true → w.pathInfoOk = true →
      test_data_create opts w = Except.error OpenErr.emptyTarget) ∧
    (∀ p, vecsum_local_run w p ≠ Except.error OpenErr.emptyTarget) ∧
    (w.openOk = true → w.fstatOk = true → w.mmapOk = true →
      ∀ p, vecsum_local_run w p = Except.ok (List.replicate p (0 : ℚ))) := by
  refine ⟨?_, ?_, ?_⟩
  · intro hc hp
    simp [test_data_create, hc, hp, h]
  · intro p
    unfold vecsum_local_run
    split_ifs <;> simp
  · intro ho hf hm p
    simp [vecsum_local_run, ho, hf, hm, h, vecsum_zero_len]

/-- Concrete zero-length local run where the mapping fails: the C9
counterexample.  Under POSIX an mmap of length zero fails, and vecsum_local
then reports the generic mmap I/O failure, not the empty-target resource
error the claim requires. -/
def wEmpty : World :=
  ⟨0, fun _ => 0, fun _ => true, true, true, true, false, true, true, true⟩

theorem local_empty_not_emptyTarget :
    vecsum_local_run wEmpty 1 = Except.error OpenErr.mmapFail ∧
      (Except.error OpenErr.mmapFail : Except OpenErr (List ℚ)) ≠
        Except.error OpenErr.emptyTarget :=
  ⟨rfl, by simp⟩

/-- Concrete zero-length local run for the C9 witness (mapping succeeds). -/
def wEmptyOk : World :=
  ⟨0, fun _ => 0, fun _ => true, true, true, true, true, true, true, true⟩

def opts9 : Opts := ⟨"g", 1, VecsumType.zcr, "default"⟩

/-- Witness for C9 on a concrete zero-length target. -/
theorem empty_target_remote_only_witness :
    test_data_create opts9 wEmptyOk = Except.error OpenErr.emptyTarget ∧
    vecsum_local_run wEmptyOk 1 ≠ Except.error OpenErr.emptyTarget ∧
    vecsum_local_run wEmptyOk 1 = Except.ok (List.replicate 1 (0 : ℚ)) :=
  ⟨(empty_target_remote_only opts9 wEmptyOk rfl).1 rfl rfl,
    (empty_target_remote_only opts9 wEmptyOk rfl).2.1 1,
    (empty_target_remote_only opts9 wEmptyOk rfl).2.2 rfl rfl rfl 1⟩

/-- Closed form of the streaming read loop over a constant-1.0 file whose
remaining length is exactly k full chunks: the pass succeeds, consuming the
k chunks and adding k times the doubles-per-chunk count to the sum. -/
lemma normal_loop_go_const_one (w : World) (hread : w.readOk = true)
    (hdata : ∀ i, w.fileData i = 1) :
    ∀ (k pos : ℕ) (sum : ℚ), w.fileLen - pos = k * NORMAL_READ_CHUNK_SIZE →
      vecsum_normal_loop_go w pos sum =
        Except.ok (sum + ((k * (NORMAL_READ_CHUNK_SIZE / 8) : ℕ) : ℚ),
          pos + k * NORMAL_READ_CHUNK_SIZE) := by
  intro k
  induction k with
  | zero =>
    intro pos sum h
    have h0 : w.fileLen - pos = 0 := by simpa using h
    rw [vecsum_normal_loop_go]
    simp [hread, h0]
  | succ k ih =>
    intro pos sum h
    have hC : NORMAL_READ_CHUNK_SIZE = 8388608 := rfl
    have hmin : min (w.fileLen - pos) NORMAL_READ_CHUNK_SIZE = NORMAL_READ_CHUNK_SIZE := by
      rw [hC] at h ⊢
      omega
    have hne : ¬(min (w.fileLen - pos) NORMAL_READ_CHUNK_SIZE = 0) := by
      rw [hmin, hC]
      omega
    have hnlt : ¬(min (w.fileLen - pos) NORMAL_READ_CHUNK_SIZE < NORMAL_READ_CHUNK_SIZE) := by
      rw [hmin]
      omega
    have hchunk : chunkAt w pos = fun _ => (1 : ℚ) := funext fun j => hdata _
    have hvs : vecsum (chunkAt w pos) (NORMAL_READ_CHUNK_SIZE / 8) =
        ((NORMAL_READ_CHUNK_SIZE / 8 : ℕ) : ℚ) := by
      rw [hchunk]
      exact vecsum_const_one _ (by decide)
    rw [vecsum_normal_loop_go]
    simp only [hread]
    rw [if_neg (by simp), dif_neg hne, dif_neg hnlt, hvs,
      ih (pos + NORMAL_READ_CHUNK_SIZE) _ (by rw [hC] at h ⊢; omega)]
    simp only [Except.ok.injEq, Prod.mk.injEq]
    constructor
    · push_cast
      ring
    · ring

/-- The 16 MiB constant-1.0 target of testable property 5, with every
external call succeeding. -/
def wC2 : World :=
  ⟨16777216, fun _ => 1, fun _ => true, true, true, true, true, true, true, true⟩

/-- Streaming configuration with passCount 1 for the same scenario. -/
def envC2 : Env := ⟨some "/vecsum-16MiB", some 1, some "libhdfs", none⟩

/-- One streaming pass over the 16 MiB constant-1.0 target sums to 2097152
and ends at byte position 16777216. -/
lemma streaming_16MiB_loop :
    vecsum_normal_loop_go wC2 0 0 = Except.ok ((2097152 : ℚ), 16777216) := by
  have hloop := normal_loop_go_const_one wC2 rfl (fun _ => rfl) 2 0 0 (by decide)
  rw [hloop]
  norm_num [NORMAL_READ_CHUNK_SIZE]

lemma streaming_16MiB_strategy :
    vecsum_libhdfs_run wC2 (1 : Int).toNat = Except.ok [(2097152 : ℚ)] := by
  show vecsum_libhdfs_run wC2 1 = _
  unfold vecsum_libhdfs_run
  rw [if_neg (by decide)]
  show vecsum_libhdfs_go wC2 (Nat.succ 0) 0 [] = _
  rw [vecsum_libhdfs_go, streaming_16MiB_loop]
  rfl

/-- Generic evaluation of main for a successful streaming (libhdfs) run; the
inputs stay symbolic so that the proof never evaluates the heavy reduction. -/
lemma main_run_libhdfs_ok (env : Env) (w : World) (p : String) (n : Int) (rpc : String)
    (hopts : options_create env = some ⟨p, n, VecsumType.libhdfs, rpc⟩)
    (len : ℕ) (htd : test_data_create ⟨p, n, VecsumType.libhdfs, rpc⟩ w = Except.ok len)
    (halloc : w.allocOk = true)
    (sums : List ℚ) (hrun : vecsum_libhdfs_run w n.toNat = Except.ok sums) :
    main_run env w =
      { exit := 0, sums := sums, reportedBytes := some ((w.fileLen : Int) * n) } := by
  unfold main_run
  rw [if_neg (by decide), hopts]
  simp only [htd, halloc, hrun, Except.map]
  rfl

/-- C2: on a 16 MiB target (two 8 MiB chunks) filled with 1.0, a run with
passCount 1 and the Streaming strategy reports the per-pass sum 2097152.0
and reports 16777216 total bytes processed (target length times pass
count). -/
theorem streaming_16MiB_pass :
    (main_run envC2 wC2).sums = [2097152] ∧
    (main_run envC2 wC2).reportedBytes = some 16777216 := by
  rw [main_run_libhdfs_ok envC2 wC2 "/vecsum-16MiB" 1 "default" (by rfl) 16777216 rfl rfl
    [(2097152 : ℚ)] streaming_16MiB_strategy]
  exact ⟨rfl, rfl⟩

lemma options_create_passes_pos (env : Env) (opts : Opts)
    (h : options_create env = some opts) : 0 < opts.passes := by
  unfold options_create at h
  rcases hp : env.path with _ | p <;> rw [hp] at h <;> simp at h
  rcases hn : env.passesVal with _ | n <;> rw [hn] at h <;> simp at h
  obtain ⟨hle, h⟩ := h
  rcases ht : env.ty with _ | tys <;> rw [ht] at h <;> simp at h
  rcases hpt : parse_vecsum_type tys with _ | ty <;> rw [hpt] at h <;> simp at h
  have hpn : opts.passes = n := by rw [← h]
  omega

lemma localErrno_ne_zero (e : OpenErr) : localErrno e ≠ 0 := by
  cases e <;> simp [localErrno, eioErr, EINVAL]

/-- C7 amended: configuration errors, session or open errors, allocation
failures, read failures and local strategy failures all propagate to main
and exit non-zero; only the between-pass seek is exempt, its return value
being ignored by the source. -/
theorem errors_propagate_to_exit (env : Env) (w : World) :
    (options_create env = none → (main_run env w).exit ≠ 0) ∧
    (∀ opts, options_create env = some opts → opts.ty ≠ VecsumType.localTy →
      (∃ e, test_data_create opts w = Except.error e) → (main_run env w).exit ≠ 0) ∧
    (∀ opts, options_create env = some opts → w.allocOk = false →
      (main_run env w).exit ≠ 0) ∧
    (∀ opts, options_create env = some opts → opts.ty = VecsumType.libhdfs →
      w.allocOk = true → w.readOk = false → (main_run env w).exit ≠ 0) ∧
    (∀ opts, options_create env = some opts → opts.ty = VecsumType.zcr →
      w.allocOk = true → w.readOk = false → (main_run env w).exit ≠ 0) ∧
    (∀ opts, options_create env = some opts → opts.ty = VecsumType.localTy →
      (∃ e, vecsum_local_run w opts.passes.toNat = Except.error e) →
      (main_run env w).exit ≠ 0) := by
  refine ⟨?_, ?_, ?_, ?_, ?_, ?_⟩
  · intro h
    unfold main_run
    rw [if_neg (by decide), h]
    show (1 : ℕ) ≠ 0
    decide
  · rintro opts hoc hty ⟨e, he⟩
    unfold main_run
    rw [if_neg (by decide), hoc]
    simp [hty, he, Except.map]
  · intro opts hoc ha
    unfold main_run
    rw [if_neg (by decide), hoc]
    rcases hty : opts.ty with _ | _ | _
    · rcases htd : test_data_create opts w with e | len <;> simp [hty, htd, ha, Except.map]
    · rcases htd : test_data_create opts w with e | len <;> simp [hty, htd, ha, Except.map]
    · simp [hty, ha]
  · intro opts hoc hty ha hr
    have hp := options_create_passes_pos env opts hoc
    unfold main_run
    rw [if_neg (by decide), hoc]
    rcases htd : test_data_create opts w with e | len
    · simp [hty, htd, Except.map]
    · have hk : opts.passes.toNat = Nat.succ (opts.passes.toNat - 1) := by omega
      have hstrat : vecsum_libhdfs_run w opts.passes.toNat = Except.error (eioErr, []) := by
        unfold vecsum_libhdfs_run
        rw [if_neg (by simp [ha]), hk, vecsum_libhdfs_go, vecsum_normal_loop_go, hr]
        simp
      simp [hty, htd, ha, hstrat, Except.map, eioErr]
  · intro opts hoc hty ha hr
    have hp := options_create_passes_pos env opts hoc
    unfold main_run
    rw [if_neg (by decide), hoc]
    rcases htd : test_data_create opts w with e | len
    · simp [hty, htd, Except.map]
    · have hk : opts.passes.toNat = Nat.succ (opts.passes.toNat - 1) := by omega
      have hstrat : vecsum_zcr_run w opts.passes.toNat = Except.error (eioErr, []) := by
        unfold vecsum_zcr_run
        rw [if_neg (by simp [ha]), hk, vecsum_zcr_go]
        rw [show zcrStream w 0 = [ZcrRead.rzFail eioErr] by rw [zcrStream, if_pos hr]]
        rfl
      simp [hty, htd, ha, hstrat, Except.map, eioErr]
  · rintro opts hoc hty ⟨e, he⟩
    unfold main_run
    rw [if_neg (by decide), hoc]
    rcases ha : w.allocOk with _ | _
    · simp [hty, ha]
    · simp [hty, ha, he]
      exact localErrno_ne_zero e

/-- The C7 counterexample run: streaming strategy, two passes over an 8 MiB
constant-1.0 target, every call succeeding except the between-pass seek. -/
def wSeek : World :=
  ⟨8388608, fun _ => 1, fun _ => true, true, true, true, true, true, true, false⟩

def envSeek : Env := ⟨some "f", some 2, some "libhdfs", none⟩

lemma seek_fail_strategy :
    vecsum_libhdfs_run wSeek (2 : Int).toNat = Except.ok [(1048576 : ℚ), 0] := by
  show vecsum_libhdfs_run wSeek 2 = _
  have h1 : vecsum_normal_loop_go wSeek 0 0 = Except.ok ((1048576 : ℚ), 8388608) := by
    have h := normal_loop_go_const_one wSeek rfl (fun _ => rfl) 1 0 0 (by decide)
    rw [h]
    norm_num [NORMAL_READ_CHUNK_SIZE]
  have h2 : vecsum_normal_loop_go wSeek 8388608 0 = Except.ok ((0 : ℚ), 8388608) := by
    have h := normal_loop_go_const_one wSeek rfl (fun _ => rfl) 0 8388608 0 (by decide)
    rw [h]
    norm_num
  unfold vecsum_libhdfs_run
  rw [if_neg (by decide)]
  show vecsum_libhdfs_go wSeek (Nat.succ (Nat.succ 0)) 0 [] = _
  rw [vecsum_libhdfs_go, h1]
  show vecsum_libhdfs_go wSeek (Nat.succ 0) 8388608 [(1048576 : ℚ)] = _
  rw [vecsum_libhdfs_go, h2]
  rfl

/-- C7 counterexample: with the between-pass seek failing, the run is not
aborted; the second pass silently reads nothing (sum 0) and the process
exits 0. -/
theorem seek_failure_still_exits_zero :
    wSeek.seekOk = false ∧ (main_run envSeek wSeek).exit = 0 ∧
      (main_run envSeek wSeek).sums = [1048576, 0] := by
  rw [main_run_libhdfs_ok envSeek wSeek "f" 2 "default" (by rfl) 8388608 rfl rfl
    [(1048576 : ℚ), 0] seek_fail_strategy]
  exact ⟨rfl, rfl, rfl⟩

/-- Concrete environment with a missing target path for the C7 witness. -/
def envNoPath : Env := ⟨none, some 1, some "zcr", none⟩

/-- Witness for C7: a configuration error (missing path) exits non-zero. -/
theorem errors_propagate_to_exit_witness :
    options_create envNoPath = none ∧ (main_run envNoPath wC2).exit ≠ 0 :=
  ⟨rfl, (errors_propagate_to_exit envNoPath wC2).1 rfl⟩

/-- The result main produces when the selected strategy is the local one,
as a function of the world and the pass count alone (main_run specializes to
this; note no connection, endpoint, or path enters). -/
def main_local_result (w : World) (n : Int) : RunResult :=
  if w.allocOk = false then { exit := 1, sums := [], reportedBytes := none }
  else
    match vecsum_local_run w n.toNat with
    | Except.error e => { exit := localErrno e, sums := [], reportedBytes := none }
    | Except.ok sums =>
      { exit := 0, sums := sums
        reportedBytes := (if w.fstatOk then some ((w.fileLen : Int)) else none).map
          (fun l => l * n) }

/-- The trace main produces when the selected strategy is the local one. -/
def main_local_trace (w : World) (n : Int) : List Event :=
  if w.allocOk = false then []
  else Event.stopwatchStart ::
    (vecsum_local_events w n.toNat ++
      (match vecsum_local_run w n.toNat with
       | Except.error _ => []
       | Except.ok _ => if w.fstatOk then [Event.stopwatchStop] else []))

lemma main_run_local_eval (env : Env) (w : World) (p : String) (n : Int) (rpc : String)
    (hopts : options_create env = some ⟨p, n, VecsumType.localTy, rpc⟩) :
    main_run env w = main_local_result w n ∧ main_events env w = main_local_trace w n := by
  constructor
  · unfold main_run main_local_result
    rw [if_neg (by decide), hopts]
    rcases ha : w.allocOk with _ | _
    · simp [ha]
    · rcases hlr : vecsum_local_run w n.toNat with e | sums <;> simp [ha, hlr]
  · unfold main_events main_local_trace
    rw [if_neg (by decide), hopts]
    rcases ha : w.allocOk with _ | _
    · simp [ha]
    · rcases hlr : vecsum_local_run w n.toNat with e | sums <;> simp [ha, hlr]

lemma vecsum_local_events_no_connect (w : World) (k : ℕ) :
    Event.connectEstablished ∉ vecsum_local_events w k := by
  unfold vecsum_local_events
  split_ifs <;> simp [List.mem_flatMap]

lemma main_local_trace_no_connect (w : World) (n : Int) :
    Event.connectEstablished ∉ main_local_trace w n := by
  unfold main_local_trace
  rcases ha : w.allocOk with _ | _
  · rw [if_pos rfl]
    simp
  · rw [if_neg (by simp)]
    intro hmem
    simp only [List.mem_cons, List.mem_append] at hmem
    rcases hmem with h | h | h
    · exact absurd h (by simp)
    · exact vecsum_local_events_no_connect w n.toNat h
    · revert h
      rcases vecsum_local_run w n.toNat with e | sums
      · simp
      · split_ifs <;> simp

lemma options_align (e1 e2 : Env) (s : String) (hp : e1.path = e2.path)
    (hn : e1.passesVal = e2.passesVal) (ht : e1.ty = e2.ty) (hts : e1.ty = some s) :
    (options_create e1 = none ∧ options_create e2 = none) ∨
    (∃ p n ty, parse_vecsum_type s = some ty ∧
      options_create e1 = some ⟨p, n, ty, e1.rpcAddress.getD "default"⟩ ∧
      options_create e2 = some ⟨p, n, ty, e2.rpcAddress.getD "default"⟩) := by
  unfold options_create
  rw [← hp, ← hn, ← ht, hts]
  rcases e1.path with _ | p
  · exact Or.inl ⟨rfl, rfl⟩
  · rcases e1.passesVal with _ | n
    · exact Or.inl ⟨rfl, rfl⟩
    · dsimp only
      by_cases hle : n ≤ 0
      · rw [if_pos hle, if_pos hle]
        exact Or.inl ⟨rfl, rfl⟩
      · rw [if_neg hle, if_neg hle]
        rcases hps : parse_vecsum_type s with _ | ty
        · exact Or.inl ⟨rfl, rfl⟩
        · exact Or.inr ⟨p, n, ty, rfl, rfl, rfl⟩

/-- C10: with the local Memory-Mapped strategy selected, the optional RPC
endpoint has no effect: two runs whose configurations agree on path, pass
count and strategy but differ arbitrarily in the endpoint produce the same
result (same per-pass sums and exit status) and the same trace, and the run
never establishes a remote connection. -/
theorem local_ignores_endpoint (e1 e2 : Env) (w : World)
    (hp : e1.path = e2.path) (hn : e1.passesVal = e2.passesVal) (ht : e1.ty = e2.ty)
    (hl : ∃ s, e1.ty = some s ∧ parse_vecsum_type s = some VecsumType.localTy) :
    main_run e1 w = main_run e2 w ∧ main_events e1 w = main_events e2 w ∧
      Event.connectEstablished ∉ main_events e1 w := by
  obtain ⟨s, hts, hparse⟩ := hl
  rcases options_align e1 e2 s hp hn ht hts with ⟨ho1, ho2⟩ | ⟨p, n, ty, hpt, ho1, ho2⟩
  · have hm1 : main_run e1 w = { exit := 1, sums := [], reportedBytes := none } := by
      unfold main_run
      rw [if_neg (by decide), ho1]
    have hm2 : main_run e2 w = { exit := 1, sums := [], reportedBytes := none } := by
      unfold main_run
      rw [if_neg (by decide), ho2]
    have he1 : main_events e1 w = [] := by
      unfold main_events
      rw [if_neg (by decide), ho1]
    have he2 : main_events e2 w = [] := by
      unfold main_events
      rw [if_neg (by decide), ho2]
    rw [hm1, hm2, he1, he2]
    simp
  · have hty : ty = VecsumType.localTy := by
      rw [hpt] at hparse
      exact Option.some_inj.mp hparse
    subst hty
    obtain ⟨hA, hB⟩ := main_run_local_eval e1 w p n _ ho1
    obtain ⟨hC, hD⟩ := main_run_local_eval e2 w p n _ ho2
    refine ⟨by rw [hA, hC], by rw [hB, hD], ?_⟩
    rw [hB]
    exact main_local_trace_no_connect w n

/-- Two local configurations differing only in the endpoint for the C10
witness. -/
def envL1 : Env := ⟨some "f", some 1, some "local", none⟩

def envL2 : Env := ⟨some "f", some 1, some "local", some "other-namenode:8020"⟩

/-- Witness for C10 at two concrete runs differing only in the endpoint. -/
theorem local_ignores_endpoint_witness :
    main_run envL1 wEmptyOk = main_run envL2 wEmptyOk ∧
      Event.connectEstablished ∉ main_events envL1 wEmptyOk :=
  ⟨(local_ignores_endpoint envL1 envL2 wEmptyOk rfl rfl rfl ⟨"local", rfl, rfl⟩).1,
    (local_ignores_endpoint envL1 envL2 wEmptyOk rfl rfl rfl ⟨"local", rfl, rfl⟩).2.2⟩

/-! ### Ordering of events relative to the stopwatch markers -/

lemma firstAmong_shape (A B : List Event) (m : Event) (p : Event → Bool)
    (hA : ∀ e ∈ A, (p e || e == m) = false) :
    firstAmong (A ++ m :: B) m p := by
  unfold firstAmong
  rw [List.filter_append, List.filter_eq_nil_iff.mpr (by intro e he; simp [hA e he]),
    List.nil_append, List.filter_cons_of_pos (by simp)]
  rfl

lemma lastAmong_shape (A B : List Event) (m : Event) (p : Event → Bool)
    (hB : ∀ e ∈ B, (p e || e == m) = false) :
    lastAmong (A ++ m :: B) m p := by
  unfold lastAmong
  have hBnil : List.filter (fun e => p e || e == m) B = [] :=
    List.filter_eq_nil_iff.mpr (by intro e he; simp [hB e he])
  rw [List.filter_append, List.filter_cons_of_pos (by simp), hBnil]
  exact List.getLast?_concat _

lemma setup_facts (e : Event) (hs : isSetupEvent e = true) :
    (isChunkReadEvent e || e == Event.stopwatchStart) = false ∧
    e ≠ Event.stopwatchStop ∧ e ≠ Event.stopwatchStart := by
  cases e <;> revert hs <;> decide

lemma chunk_facts (e : Event) (hc : e = Event.chunkRead ∨ e = Event.chunkReduced) :
    (isSetupEvent e || e == Event.stopwatchStart) = false ∧
    e ≠ Event.stopwatchStop ∧ e ≠ Event.stopwatchStart := by
  rcases hc with rfl | rfl <;> decide

lemma test_data_events_mem (opts : Opts) (w : World) :
    ∀ e ∈ test_data_events opts w, isSetupEvent e = true := by
  intro e he
  unfold test_data_events at he
  split_ifs at he
  · simp at he
  · simp at he
    subst he
    rfl
  · simp at he
    rcases he with rfl | rfl <;> rfl
  · simp at he
    rcases he with rfl | rfl <;> rfl
  · simp at he
    rcases he with rfl | rfl <;> rfl
  · simp at he
    rcases he with rfl | rfl | rfl <;> rfl

lemma normal_loop_events_mem_fuel (w : World) :
    ∀ (fuel pos : ℕ), w.fileLen - pos ≤ fuel →
      ∀ e ∈ vecsum_normal_loop_events w pos,
        e = Event.chunkRead ∨ e = Event.chunkReduced := by
  intro fuel
  induction fuel with
  | zero =>
    intro pos hle e he
    rw [vecsum_normal_loop_events] at he
    have h0 : w.fileLen - pos = 0 := by omega
    rw [h0] at he
    simp at he
  | succ fuel ih =>
    intro pos hle e he
    rw [vecsum_normal_loop_events] at he
    by_cases hr : w.readOk = false
    · rw [if_pos hr] at he
      simp at he
    · rw [if_neg hr] at he
      by_cases h0 : min (w.fileLen - pos) NORMAL_READ_CHUNK_SIZE = 0
      · rw [dif_pos h0] at he
        simp at he
      · rw [dif_neg h0] at he
        by_cases h1 : min (w.fileLen - pos) NORMAL_READ_CHUNK_SIZE < NORMAL_READ_CHUNK_SIZE
        · rw [dif_pos h1] at he
          simp at he
          exact Or.inl he
        · rw [dif_neg h1] at he
          simp only [List.mem_cons] at he
          rcases he with h | h | h
          · exact Or.inl h
          · exact Or.inr h
          · refine ih (pos + NORMAL_READ_CHUNK_SIZE) ?_ e h
            have hC : NORMAL_READ_CHUNK_SIZE = 8388608 := rfl
            rw [hC] at h0 h1
            omega

lemma normal_loop_events_mem (w : World) (pos : ℕ) :
    ∀ e ∈ vecsum_normal_loop_events w pos,
      e = Event.chunkRead ∨ e = Event.chunkReduced :=
  normal_loop_events_mem_fuel w (w.fileLen - pos) pos le_rfl

lemma libhdfs_events_go_mem (w : World) :
    ∀ (k pos : ℕ), ∀ e ∈ vecsum_libhdfs_events_go w k pos,
      e = Event.chunkRead ∨ e = Event.chunkReduced := by
  intro k
  induction k with
  | zero =>
    intro pos e he
    simp [vecsum_libhdfs_events_go] at he
  | succ k ih =>
    intro pos e he
    rw [vecsum_libhdfs_events_go] at he
    rcases List.mem_append.mp he with h | h
    · exact normal_loop_events_mem w pos e h
    · revert h
      rcases vecsum_normal_loop_go w pos 0 with er | pr
      · intro h
        simp at h
      · intro h
        exact ih _ e h

lemma libhdfs_events_mem (w : World) (k : ℕ) :
    ∀ e ∈ vecsum_libhdfs_events w k, e = Event.chunkRead ∨ e = Event.chunkReduced := by
  intro e he
  unfold vecsum_libhdfs_events at he
  split_ifs at he
  · simp at he
  · exact libhdfs_events_go_mem w k 0 e he

lemma zcr_loop_events_mem :
    ∀ (reads : List ZcrRead), ∀ e ∈ vecsum_zcr_loop_events reads,
      e = Event.chunkRead ∨ e = Event.chunkReduced := by
  intro reads
  induction reads with
  | nil =>
    intro e he
    simp [vecsum_zcr_loop_events] at he
  | cons r rest ih =>
    intro e he
    cases r with
    | rzFail err => simp [vecsum_zcr_loop_events] at he
    | rzEos => simp [vecsum_zcr_loop_events] at he
    | rzChunk d len =>
      rw [vecsum_zcr_loop_events] at he
      by_cases hl : len < ZCR_READ_CHUNK_SIZE
      · rw [if_pos hl] at he
        simp at he
        exact Or.inl he
      · rw [if_neg hl] at he
        simp only [List.mem_cons] at he
        rcases he with h | h | h
        · exact Or.inl h
        · exact Or.inr h
        · exact ih e h

lemma zcr_events_go_mem (w : World) :
    ∀ (k pos : ℕ), ∀ e ∈ vecsum_zcr_events_go w k pos,
      e = Event.chunkRead ∨ e = Event.chunkReduced := by
  intro k
  induction k with
  | zero =>
    intro pos e he
    simp [vecsum_zcr_events_go] at he
  | succ k ih =>
    intro pos e he
    rw [vecsum_zcr_events_go] at he
    rcases List.mem_append.mp he with h | h
    · exact zcr_loop_events_mem _ e h
    · revert h
      rcases vecsum_zcr_loop (zcrStream w pos) 0 with er | s
      · intro h
        simp at h
      · intro h
        exact ih _ e h

lemma zcr_events_mem (w : World) (k : ℕ) :
    ∀ e ∈ vecsum_zcr_events w k, e = Event.chunkRead ∨ e = Event.chunkReduced := by
  intro e he
  unfold vecsum_zcr_events at he
  split_ifs at he
  · simp at he
  · exact zcr_events_go_mem w k 0 e he

lemma vecsum_local_events_no_marker (w : World) (k : ℕ) :
    ∀ e ∈ vecsum_local_events w k,
      e ≠ Event.stopwatchStart ∧ e ≠ Event.stopwatchStop := by
  intro e he
  unfold vecsum_local_events at he
  split_ifs at he
  · simp at he
  · simp at he
    subst he
    exact ⟨by decide, by decide⟩
  · simp at he
    rcases he with rfl | rfl <;> exact ⟨by decide, by decide⟩
  · simp at he
    rcases he with rfl | rfl <;> exact ⟨by decide, by decide⟩
  · simp at he
    rcases he with rfl | rfl | rfl | h
    · exact ⟨by decide, by decide⟩
    · exact ⟨by decide, by decide⟩
    · exact ⟨by decide, by decide⟩
    · rcases h with ⟨-, hf⟩
      rcases hf with rfl | rfl <;> exact ⟨by decide, by decide⟩

lemma main_events_remote_shape (env : Env) (w : World) (opts : Opts)
    (hopts : options_create env = some opts) (hty : opts.ty ≠ VecsumType.localTy) :
    (Event.stopwatchStart ∉ main_events env w ∧ Event.stopwatchStop ∉ main_events env w) ∨
    (∃ P S, main_events env w =
        test_data_events opts w ++ Event.stopwatchStart :: (P ++ S) ∧
      (∀ e ∈ P, e = Event.chunkRead ∨ e = Event.chunkReduced) ∧
      (S = [] ∨ S = [Event.stopwatchStop])) := by
  have hsetupTrace : ∀ tr, tr = test_data_events opts w →
      Event.stopwatchStart ∉ tr ∧ Event.stopwatchStop ∉ tr := by
    rintro tr rfl
    constructor
    · intro hmem
      exact absurd (test_data_events_mem opts w _ hmem) (by decide)
    · intro hmem
      exact absurd (test_data_events_mem opts w _ hmem) (by decide)
  rcases htd : test_data_create opts w with er | len
  · left
    have htr : main_events env w = test_data_events opts w := by
      unfold main_events
      rw [if_neg (by decide), hopts]
      dsimp only
      rw [if_pos hty, if_pos hty, htd]
      simp [Except.map]
    rw [htr]
    exact hsetupTrace _ rfl
  · rcases ha : w.allocOk with _ | _
    · left
      have htr : main_events env w = test_data_events opts w := by
        unfold main_events
        rw [if_neg (by decide), hopts]
        dsimp only
        rw [if_pos hty, if_pos hty, htd]
        simp [Except.map, ha]
      rw [htr]
      exact hsetupTrace _ rfl
    · right
      rcases hty2 : opts.ty with _ | _ | _
      · have htr : main_events env w = test_data_events opts w ++
            Event.stopwatchStart :: (vecsum_libhdfs_events w opts.passes.toNat ++
              (match vecsum_libhdfs_run w opts.passes.toNat with
               | Except.error _ => []
               | Except.ok _ => [Event.stopwatchStop])) := by
          unfold main_events
          rw [if_neg (by decide), hopts]
          dsimp only
          rw [if_pos hty, if_pos hty, htd]
          simp [Except.map, ha, hty2]
        refine ⟨vecsum_libhdfs_events w opts.passes.toNat, _, htr,
          libhdfs_events_mem w _, ?_⟩
        rcases vecsum_libhdfs_run w opts.passes.toNat with er2 | s2
        · exact Or.inl rfl
        · exact Or.inr rfl
      · have htr : main_events env w = test_data_events opts w ++
            Event.stopwatchStart :: (vecsum_zcr_events w opts.passes.toNat ++
              (match vecsum_zcr_run w opts.passes.toNat with
               | Except.error _ => []
               | Except.ok _ => [Event.stopwatchStop])) := by
          unfold main_events
          rw [if_neg (by decide), hopts]
          dsimp only
          rw [if_pos hty, if_pos hty, htd]
          simp [Except.map, ha, hty2]
        refine ⟨vecsum_zcr_events w opts.passes.toNat, _, htr,
          zcr_events_mem w _, ?_⟩
        rcases vecsum_zcr_run w opts.passes.toNat with er2 | s2
        · exact Or.inl rfl
        · exact Or.inr rfl
      · exact absurd hty2 hty

lemma main_events_local_shape (env : Env) (w : World) (opts : Opts)
    (hopts : options_create env = some opts) (hty : opts.ty = VecsumType.localTy) :
    main_events env w = [] ∨
    (∃ L S, main_events env w = Event.stopwatchStart :: (L ++ S) ∧
      (∀ e ∈ L, e ≠ Event.stopwatchStart ∧ e ≠ Event.stopwatchStop) ∧
      (S = [] ∨ S = [Event.stopwatchStop])) := by
  rcases ha : w.allocOk with _ | _
  · left
    unfold main_events
    rw [if_neg (by decide), hopts]
    dsimp only
    simp [hty, ha, Except.map]
  · right
    have htr : main_events env w = Event.stopwatchStart ::
        (vecsum_local_events w opts.passes.toNat ++
          (match vecsum_local_run w opts.passes.toNat with
           | Except.error _ => []
           | Except.ok _ => if w.fstatOk then [Event.stopwatchStop] else [])) := by
      unfold main_events
      rw [if_neg (by decide), hopts]
      dsimp only
      simp [hty, ha, Except.map]
    refine ⟨_, _, htr, vecsum_local_events_no_marker w _, ?_⟩
    rcases vecsum_local_run w opts.passes.toNat with er | s
    · exact Or.inl rfl
    · rcases hf : w.fstatOk with _ | _
      · exact Or.inl (by rw [if_neg (by simp)])
      · exact Or.inr (by rw [if_pos rfl])

/-- C6 amended: for the remote strategies (Streaming and Zero-Copy) all
setup — connection, size resolution, file open — precedes the stopwatch
start; for every strategy the stopwatch starts before the first chunk is
read and stops only after the final chunk has been reduced.  (For the local
Memory-Mapped strategy the open/fstat/mmap setup happens after the
stopwatch starts, which is what the counterexample exhibits.) -/
theorem stopwatch_brackets (env : Env) (w : World) :
    (∀ opts, options_create env = some opts → opts.ty ≠ VecsumType.localTy →
      Event.stopwatchStart ∈ main_events env w →
      lastAmong (main_events env w) Event.stopwatchStart isSetupEvent) ∧
    (Event.stopwatchStart ∈ main_events env w →
      firstAmong (main_events env w) Event.stopwatchStart isChunkReadEvent) ∧
    (Event.stopwatchStop ∈ main_events env w →
      lastAmong (main_events env w) Event.stopwatchStop isChunkReducedEvent) := by
  rcases hoc : options_create env with _ | opts
  · have htr : main_events env w = [] := by
      unfold main_events
      rw [if_neg (by decide), hoc]
    rw [htr]
    refine ⟨?_, ?_, ?_⟩
    · intro o2 ho2 _ hmem
      simp at hmem
    · intro hmem
      simp at hmem
    · intro hmem
      simp at hmem
  · by_cases hty : opts.ty = VecsumType.localTy
    · rcases main_events_local_shape env w opts hoc hty with htr | ⟨L, S, htr, hL, hS⟩
      · rw [htr]
        refine ⟨?_, ?_, ?_⟩
        · intro o2 ho2 _ hmem
          simp at hmem
        · intro hmem
          simp at hmem
        · intro hmem
          simp at hmem
      · refine ⟨?_, ?_, ?_⟩
        · intro o2 ho2 hty2 _
          obtain rfl : opts = o2 := Option.some_inj.mp ho2
          exact absurd hty hty2
        · intro _
          rw [htr]
          have heq : Event.stopwatchStart :: (L ++ S) =
              [] ++ Event.stopwatchStart :: (L ++ S) := rfl
          rw [heq]
          exact firstAmong_shape [] (L ++ S) _ _ (by intro e he; simp at he)
        · intro hmem
          rw [htr] at hmem
          simp only [List.mem_cons, List.mem_append] at hmem
          rcases hmem with h | h | h
          · exact absurd h (by decide)
          · exact ((hL _ h).2 rfl).elim
          · rcases hS with rfl | rfl
            · simp at h
            · rw [htr]
              have heq : Event.stopwatchStart :: (L ++ [Event.stopwatchStop]) =
                  (Event.stopwatchStart :: L) ++ Event.stopwatchStop :: [] := by simp
              rw [heq]
              exact lastAmong_shape _ [] _ _ (by intro e he; simp at he)
    · rcases main_events_remote_shape env w opts hoc hty with ⟨hs1, hs2⟩ | ⟨P, S, htr, hP, hS⟩
      · refine ⟨?_, ?_, ?_⟩
        · intro o2 ho2 _ hmem
          exact absurd hmem hs1
        · intro hmem
          exact absurd hmem hs1
        · intro hmem
          exact absurd hmem hs2
      · refine ⟨?_, ?_, ?_⟩
        · intro o2 ho2 hty2 _
          rw [htr]
          refine lastAmong_shape _ _ _ _ ?_
          intro e he
          rcases List.mem_append.mp he with h | h
          · exact (chunk_facts e (hP e h)).1
          · rcases hS with rfl | rfl
            · simp at h
            · simp at h
              subst h
              decide
        · intro _
          rw [htr]
          exact firstAmong_shape _ _ _ _
            (fun e he => (setup_facts e (test_data_events_mem opts w e he)).1)
        · intro hmem
          rw [htr] at hmem
          simp only [List.mem_append, List.mem_cons] at hmem
          rcases hmem with h | h | h | h
          · exact absurd (test_data_events_mem opts w _ h) (by decide)
          · exact absurd h (by decide)
          · rcases hP _ h with h3 | h3 <;> exact absurd h3 (by decide)
          · rcases hS with rfl | rfl
            · simp at h
            · rw [htr]
              have heq : test_data_events opts w ++
                  Event.stopwatchStart :: (P ++ [Event.stopwatchStop]) =
                  (test_data_events opts w ++ Event.stopwatchStart :: P) ++
                    Event.stopwatchStop :: [] := by simp
              rw [heq]
              exact lastAmong_shape _ [] _ _ (by intro e he; simp at he)

/-- The all-successful local run exhibiting the C6 counterexample. -/
def wLocal : World :=
  ⟨8388608, fun _ => 1, fun _ => true, true, true, true, true, true, true, true⟩

/-- C6 counterexample: in a local (Memory-Mapped) run the trace opens with
the stopwatch start, and only then come open, fstat and the creation of the
mapping — so the mapping is created inside the measured interval, and the
stopwatch start is NOT after all setup, refuting the claim as stated. -/
theorem local_mapping_after_stopwatch_start :
    main_events envL1 wLocal =
      [Event.stopwatchStart, Event.fileOpened, Event.sizeResolved, Event.mappingCreated,
        Event.chunkRead, Event.chunkReduced, Event.stopwatchStop] ∧
      ¬ lastAmong (main_events envL1 wLocal) Event.stopwatchStart isSetupEvent := by
  have htr : main_events envL1 wLocal =
      [Event.stopwatchStart, Event.fileOpened, Event.sizeResolved, Event.mappingCreated,
        Event.chunkRead, Event.chunkReduced, Event.stopwatchStop] := by rfl
  refine ⟨htr, ?_⟩
  rw [htr]
  unfold lastAmong
  decide

/-- The event sequence of one streaming pass over the 16 MiB target. -/
lemma streaming_16MiB_events :
    vecsum_normal_loop_events wC2 0 =
      [Event.chunkRead, Event.chunkReduced, Event.chunkRead, Event.chunkReduced] := by
  rw [vecsum_normal_loop_events]
  rw [if_neg (by decide), dif_neg (by decide), dif_neg (by decide)]
  rw [vecsum_normal_loop_events]
  rw [if_neg (by decide), dif_neg (by decide), dif_neg (by decide)]
  rw [vecsum_normal_loop_events]
  rw [if_neg (by decide), dif_pos (by decide)]

lemma streaming_16MiB_strategy_events :
    vecsum_libhdfs_events wC2 (1 : Int).toNat =
      [Event.chunkRead, Event.chunkReduced, Event.chunkRead, Event.chunkReduced] := by
  show vecsum_libhdfs_events wC2 1 = _
  unfold vecsum_libhdfs_events
  rw [if_neg (by decide)]
  show vecsum_libhdfs_events_go wC2 (Nat.succ 0) 0 = _
  rw [vecsum_libhdfs_events_go, streaming_16MiB_loop, streaming_16MiB_events]
  rfl

/-- Generic trace of main for a successful streaming run. -/
lemma main_events_libhdfs_ok (env : Env) (w : World) (p : String) (n : Int) (rpc : String)
    (hopts : options_create env = some ⟨p, n, VecsumType.libhdfs, rpc⟩)
    (len : ℕ) (htd : test_data_create ⟨p, n, VecsumType.libhdfs, rpc⟩ w = Except.ok len)
    (halloc : w.allocOk = true)
    (sums : List ℚ) (hrun : vecsum_libhdfs_run w n.toNat = Except.ok sums) :
    main_events env w = test_data_events ⟨p, n, VecsumType.libhdfs, rpc⟩ w ++
      Event.stopwatchStart :: (vecsum_libhdfs_events w n.toNat ++ [Event.stopwatchStop]) := by
  unfold main_events
  rw [if_neg (by decide), hopts]
  dsimp only
  simp only [htd, halloc, hrun, Except.map]
  rfl

/-- The full trace of the successful 16 MiB streaming run. -/
lemma streaming_16MiB_trace :
    main_events envC2 wC2 =
      [Event.connectEstablished, Event.sizeResolved, Event.fileOpened, Event.stopwatchStart,
        Event.chunkRead, Event.chunkReduced, Event.chunkRead, Event.chunkReduced,
        Event.stopwatchStop] := by
  rw [main_events_libhdfs_ok envC2 wC2 "/vecsum-16MiB" 1 "default" (by rfl) 16777216 rfl rfl
    [(2097152 : ℚ)] streaming_16MiB_strategy]
  rw [streaming_16MiB_strategy_events]
  rfl

/-- Witness for C6: on the concrete successful streaming run the stopwatch
start follows all setup, and on the concrete local run the start precedes
every chunk read and the stop follows every reduction. -/
theorem stopwatch_brackets_witness :
    lastAmong (main_events envC2 wC2) Event.stopwatchStart isSetupEvent ∧
    firstAmong (main_events envL1 wLocal) Event.stopwatchStart isChunkReadEvent ∧
    lastAmong (main_events envL1 wLocal) Event.stopwatchStop isChunkReducedEvent :=
  ⟨(stopwatch_brackets envC2 wC2).1 ⟨"/vecsum-16MiB", 1, VecsumType.libhdfs, "default"⟩
      (by rfl) (by decide) (by rw [streaming_16MiB_trace]; decide),
    (stopwatch_brackets envL1 wLocal).2.1 (by decide),
    (stopwatch_brackets envL1 wLocal).2.2 (by decide)⟩

/-- Witness for C5 at a concrete short chunk and a concrete accumulated sum. -/
theorem zcr_partial_fatal_null_eos_witness :
    (4 : ℕ) < ZCR_READ_CHUNK_SIZE ∧
      vecsum_zcr_loop [ZcrRead.rzChunk (fun _ => 9) 4] 3 = Except.error EINVAL ∧
      vecsum_zcr_loop [ZcrRead.rzEos] 3 = Except.ok 3 :=
  ⟨by norm_num [ZCR_READ_CHUNK_SIZE],
    (zcr_partial_fatal_null_eos (fun _ => 9) 4 [] 3).1 (by norm_num [ZCR_READ_CHUNK_SIZE]),
    (zcr_partial_fatal_null_eos (fun _ => 9) 4 [] 3).2⟩

end Vecsum2
